import Mathlib

/-!
Verification of the Conan recipe `conanfile.py` of the Wren renderer
repository against its specification.

The recipe's own code (`ConanRecipe.set_version`) is embedded directly.
Components whose behaviour the spec fixes but whose code lives in the
Conan framework rather than in this repository (layout planning,
artifact generation, build invocation, dependency validation, the
lifecycle state machine) are modelled from the spec, as noted in their
doc comments.
-/

namespace Wren

/-! ## VersionResolver: embedding of `ConanRecipe.set_version`

The Python code is

```
filepath = "projects/core/include/core/version.hpp"
try:
    data = tools.load(filepath)
    major_version = re.search(r"RENDERER_VERSION_MAJOR\s+(\d+)", data).group(1)
    minor_version = re.search(r"RENDERER_VERSION_MINOR\s+(\d+)", data).group(1)
    patch_version = re.search(r"RENDERER_VERSION_PATCH\s+(\d+)", data).group(1)
    version_string = "{}.{}.{}".format(major_version, minor_version, patch_version)
    self.version = version_string
except Exception as e:
    self.version = None
```

File contents are `List Char`; an unreadable file is `none`.  The
regular expression `MARKER\s+(\d+)` is embedded by `matchAt` (match at
the current position: the literal marker, then a maximal nonempty run
of whitespace, then a maximal nonempty run of digits, the digits being
the captured group) and `reSearch` (leftmost match, as `re.search`).
Since no character is both whitespace and a digit, the greedy `\s+`
never backtracks, so this function is the exact match semantics.
-/

/-- Python's `\s` on the ASCII whitespace characters that can occur in a
version header. -/
def isSpaceChar (c : Char) : Bool :=
  c == ' ' || c == '\t' || c == '\n' || c == '\r' || c == '\x0b' || c == '\x0c'

/-- Strip a literal marker from the front of `s`; `none` if `s` does not
start with it. -/
def dropMarker : List Char → List Char → Option (List Char)
  | [], s => some s
  | _ :: _, [] => none
  | m :: ms, c :: cs => if m = c then dropMarker ms cs else none

/-- Attempt to match `MARKER\s+(\d+)` at the start of `s`, returning the
captured digit run. -/
def matchAt (marker s : List Char) : Option (List Char) :=
  match dropMarker marker s with
  | none => none
  | some rest =>
    let ws := rest.takeWhile isSpaceChar
    let tl := rest.dropWhile isSpaceChar
    let ds := tl.takeWhile Char.isDigit
    if ws.isEmpty || ds.isEmpty then none else some ds

/-- `re.search(r"MARKER\s+(\d+)", s)`: the leftmost position where the
pattern matches, returning the captured digit run of that match. -/
def reSearch (marker : List Char) : List Char → Option (List Char)
  | [] => none
  | c :: t =>
    match matchAt marker (c :: t) with
    | some ds => some ds
    | none => reSearch marker t

/-- The three marker names of `set_version` (source lines 31–33). -/
def majorKey : List Char := "RENDERER_VERSION_MAJOR".toList

def minorKey : List Char := "RENDERER_VERSION_MINOR".toList

def patchKey : List Char := "RENDERER_VERSION_PATCH".toList

/-- The fixed path read by `set_version` (source line 28). -/
def version_filepath : String := "projects/core/include/core/version.hpp"

/-- `ConanRecipe.set_version` on a given file content (`none`: the file
could not be read).  Returns the stored `self.version`: `none` models
`self.version = None` from the catch-all `except` branch. -/
def set_version (file : Option (List Char)) : Option (List Char) :=
  match file with
  | none => none
  | some data =>
    match reSearch majorKey data, reSearch minorKey data, reSearch patchKey data with
    | some a, some b, some c => some (a ++ '.' :: (b ++ '.' :: c))
    | _, _, _ => none

/-- `set_version` as run against a filesystem (a map from paths to
readable contents): the recipe always loads `version_filepath`. -/
def set_version_run (fs : String → Option (List Char)) : Option (List Char) :=
  set_version (fs version_filepath)

/-- `s` contains, somewhere, the marker name followed by (nonempty)
whitespace followed by a (nonempty) digit run: the situation in which
the regex `MARKER\s+(\d+)` has a match inside `s`. -/
def HasMarkerAssign (marker s : List Char) : Prop :=
  ∃ pre ws ds rest, s = pre ++ marker ++ ws ++ ds ++ rest ∧
    ws ≠ [] ∧ (∀ c ∈ ws, isSpaceChar c = true) ∧
    ds ≠ [] ∧ (∀ c ∈ ds, c.isDigit = true)

/-! ### Supporting lemmas on the regex embedding -/

lemma dropMarker_append (m r : List Char) : dropMarker m (m ++ r) = some r := by
  induction m with
  | nil => rfl
  | cons c cs ih => simp [dropMarker, ih]

lemma dropMarker_sound {m s r : List Char} (h : dropMarker m s = some r) :
    s = m ++ r := by
  induction m generalizing s with
  | nil =>
    simp only [dropMarker, Option.some.injEq] at h
    simpa using h
  | cons c cs ih =>
    cases s with
    | nil => simp [dropMarker] at h
    | cons d ds =>
      by_cases hc : c = d
      · subst hc
        simp only [dropMarker, if_pos rfl] at h
        simpa using ih h
      · simp [dropMarker, hc] at h

lemma digit_not_space {c : Char} (h : c.isDigit = true) : isSpaceChar c = false := by
  cases hs : isSpaceChar c with
  | false => rfl
  | true =>
    exfalso
    simp only [isSpaceChar, Bool.or_eq_true, beq_iff_eq] at hs
    rcases hs with ((((h1 | h1) | h1) | h1) | h1) | h1 <;> subst h1 <;>
      exact absurd h (by decide)

lemma takeWhile_append_all {p : Char → Bool} {l : List Char} (r : List Char)
    (h : ∀ c ∈ l, p c = true) :
    (l ++ r).takeWhile p = l ++ r.takeWhile p := by
  induction l with
  | nil => simp
  | cons c cs ih =>
    have hc : p c = true := h c (List.mem_cons_self c cs)
    simp only [List.cons_append, List.takeWhile_cons, hc, if_pos]
    simp [ih fun d hd => h d (List.mem_cons_of_mem c hd)]

lemma dropWhile_append_all {p : Char → Bool} {l : List Char} (r : List Char)
    (h : ∀ c ∈ l, p c = true) :
    (l ++ r).dropWhile p = r.dropWhile p := by
  induction l with
  | nil => simp
  | cons c cs ih =>
    have hc : p c = true := h c (List.mem_cons_self c cs)
    simp only [List.cons_append, List.dropWhile_cons, hc, if_pos]
    exact ih fun d hd => h d (List.mem_cons_of_mem c hd)

lemma takeWhile_eq_nil_of_head {p : Char → Bool} {l : List Char}
    (h : ∀ c, l.head? = some c → p c = false) : l.takeWhile p = [] := by
  cases l with
  | nil => rfl
  | cons c cs => simp [List.takeWhile_cons, h c rfl]

lemma dropWhile_eq_self_of_head {p : Char → Bool} {l : List Char}
    (h : ∀ c, l.head? = some c → p c = false) : l.dropWhile p = l := by
  cases l with
  | nil => rfl
  | cons c cs => simp [List.dropWhile_cons, h c rfl]

lemma head?_dropWhile_false {α : Type} {p : α → Bool} (l : List α) :
    ∀ c, (l.dropWhile p).head? = some c → p c = false := by
  induction l with
  | nil => intro c hc; simp at hc
  | cons x xs ih =>
    intro c hc
    by_cases hx : p x
    · rw [List.dropWhile_cons_of_pos hx] at hc
      exact ih c hc
    · rw [List.dropWhile_cons_of_neg hx] at hc
      simp only [List.head?_cons, Option.some.injEq] at hc
      subst hc
      exact Bool.eq_false_iff.mpr hx

lemma matchAt_eq {marker s rest0 : List Char} (hdm : dropMarker marker s = some rest0) :
    matchAt marker s =
      if (rest0.takeWhile isSpaceChar).isEmpty ||
          ((rest0.dropWhile isSpaceChar).takeWhile Char.isDigit).isEmpty then none
      else some ((rest0.dropWhile isSpaceChar).takeWhile Char.isDigit) := by
  unfold matchAt
  rw [hdm]

lemma matchAt_none {marker s : List Char} (hdm : dropMarker marker s = none) :
    matchAt marker s = none := by
  unfold matchAt
  rw [hdm]

lemma ds_head_not_space {ds rest : List Char} (hds : ds ≠ [])
    (hdsAll : ∀ c ∈ ds, c.isDigit = true) :
    ∀ c, (ds ++ rest).head? = some c → isSpaceChar c = false := by
  intro c hc
  cases ds with
  | nil => exact absurd rfl hds
  | cons d dtl =>
    simp only [List.cons_append, List.head?_cons, Option.some.injEq] at hc
    exact hc ▸ digit_not_space (hdsAll d (List.mem_cons_self d dtl))

lemma matchAt_exact {marker ws ds rest : List Char}
    (hws : ws ≠ []) (hwsAll : ∀ c ∈ ws, isSpaceChar c = true)
    (hds : ds ≠ []) (hdsAll : ∀ c ∈ ds, c.isDigit = true)
    (hrest : ∀ c, rest.head? = some c → c.isDigit = false) :
    matchAt marker (marker ++ (ws ++ (ds ++ rest))) = some ds := by
  rw [matchAt_eq (dropMarker_append marker (ws ++ (ds ++ rest)))]
  have hdhead := @ds_head_not_space ds rest hds hdsAll
  rw [takeWhile_append_all (ds ++ rest) hwsAll,
      takeWhile_eq_nil_of_head hdhead,
      dropWhile_append_all (ds ++ rest) hwsAll,
      dropWhile_eq_self_of_head hdhead,
      takeWhile_append_all rest hdsAll,
      takeWhile_eq_nil_of_head fun c hc =>
        Bool.eq_false_iff.mpr fun hd => by simp [hrest c hc] at hd]
  simp [List.isEmpty_iff, hws, hds]

lemma matchAt_isSome {marker ws ds rest : List Char}
    (hws : ws ≠ []) (hwsAll : ∀ c ∈ ws, isSpaceChar c = true)
    (hds : ds ≠ []) (hdsAll : ∀ c ∈ ds, c.isDigit = true) :
    (matchAt marker (marker ++ (ws ++ (ds ++ rest)))).isSome = true := by
  rw [matchAt_eq (dropMarker_append marker (ws ++ (ds ++ rest)))]
  have hdhead := @ds_head_not_space ds rest hds hdsAll
  rw [takeWhile_append_all (ds ++ rest) hwsAll,
      takeWhile_eq_nil_of_head hdhead,
      dropWhile_append_all (ds ++ rest) hwsAll,
      dropWhile_eq_self_of_head hdhead,
      takeWhile_append_all rest hdsAll]
  simp [List.isEmpty_iff, hws, hds]

lemma matchAt_sound {marker s ds : List Char} (h : matchAt marker s = some ds) :
    ∃ ws rest, s = marker ++ (ws ++ (ds ++ rest)) ∧
      ws ≠ [] ∧ (∀ c ∈ ws, isSpaceChar c = true) ∧
      ds ≠ [] ∧ (∀ c ∈ ds, c.isDigit = true) ∧
      (∀ c, rest.head? = some c → c.isDigit = false) := by
  cases hdm : dropMarker marker s with
  | none => rw [matchAt_none hdm] at h; cases h
  | some rest0 =>
    rw [matchAt_eq hdm] at h
    by_cases hcond : ((rest0.takeWhile isSpaceChar).isEmpty ||
        ((rest0.dropWhile isSpaceChar).takeWhile Char.isDigit).isEmpty) = true
    · rw [if_pos hcond] at h; cases h
    · rw [if_neg hcond] at h
      simp only [Bool.or_eq_true, not_or, Bool.not_eq_true,
        List.isEmpty_eq_false_iff_exists_mem] at hcond
      simp only [Option.some.injEq] at h
      subst h
      refine ⟨rest0.takeWhile isSpaceChar,
        (rest0.dropWhile isSpaceChar).dropWhile Char.isDigit, ?_, ?_, ?_, ?_, ?_, ?_⟩
      · rw [List.takeWhile_append_dropWhile, List.takeWhile_append_dropWhile]
        exact dropMarker_sound hdm
      · rcases hcond.1 with ⟨x, hx⟩
        exact List.ne_nil_of_mem hx
      · intro c hc
        exact List.mem_takeWhile_imp hc
      · rcases hcond.2 with ⟨x, hx⟩
        exact List.ne_nil_of_mem hx
      · intro c hc
        exact List.mem_takeWhile_imp hc
      · exact head?_dropWhile_false _

lemma reSearch_hasAssign {marker s ds : List Char} (h : reSearch marker s = some ds) :
    HasMarkerAssign marker s := by
  induction s with
  | nil => cases h
  | cons c t ih =>
    simp only [reSearch] at h
    cases hm : matchAt marker (c :: t) with
    | some d =>
      rw [hm] at h
      simp only [Option.some.injEq] at h
      subst h
      obtain ⟨ws, rest, heq, hws, hwsAll, hds, hdsAll, _⟩ := matchAt_sound hm
      exact ⟨[], ws, d, rest, by simpa [List.append_assoc] using heq, hws, hwsAll, hds, hdsAll⟩
    | none =>
      rw [hm] at h
      obtain ⟨pre, ws, ds', rest, heq, hws, hwsAll, hds, hdsAll⟩ := ih h
      exact ⟨c :: pre, ws, ds', rest, by simp [heq], hws, hwsAll, hds, hdsAll⟩

lemma reSearch_digits {marker s ds : List Char} (h : reSearch marker s = some ds) :
    ds ≠ [] ∧ (∀ c ∈ ds, c.isDigit = true) := by
  induction s with
  | nil => cases h
  | cons c t ih =>
    simp only [reSearch] at h
    cases hm : matchAt marker (c :: t) with
    | some d =>
      rw [hm] at h
      simp only [Option.some.injEq] at h
      subst h
      obtain ⟨_, _, _, _, _, hds, hdsAll, _⟩ := matchAt_sound hm
      exact ⟨hds, hdsAll⟩
    | none =>
      rw [hm] at h
      exact ih h

lemma reSearch_isSome_append (marker pre ws ds rest : List Char)
    (hws : ws ≠ []) (hwsAll : ∀ c ∈ ws, isSpaceChar c = true)
    (hds : ds ≠ []) (hdsAll : ∀ c ∈ ds, c.isDigit = true) :
    (reSearch marker (pre ++ (marker ++ (ws ++ (ds ++ rest))))).isSome = true := by
  induction pre with
  | nil =>
    have hsome := @matchAt_isSome marker ws ds rest hws hwsAll hds hdsAll
    simp only [List.nil_append]
    cases hs : marker ++ (ws ++ (ds ++ rest)) with
    | nil =>
      exfalso
      rcases List.append_eq_nil.mp hs with ⟨-, h2⟩
      exact hws (List.append_eq_nil.mp h2).1
    | cons c t =>
      rw [hs] at hsome
      simp only [reSearch]
      cases hm : matchAt marker (c :: t) with
      | some d => simp
      | none => rw [hm] at hsome; cases hsome
  | cons p pt ih =>
    simp only [List.cons_append, reSearch]
    cases hm : matchAt marker (p :: (pt ++ (marker ++ (ws ++ (ds ++ rest))))) with
    | some d => simp
    | none => exact ih

lemma reSearch_isSome_of_hasAssign {marker s : List Char} (h : HasMarkerAssign marker s) :
    (reSearch marker s).isSome = true := by
  obtain ⟨pre, ws, ds, rest, heq, hws, hwsAll, hds, hdsAll⟩ := h
  subst heq
  simpa [List.append_assoc] using
    reSearch_isSome_append marker pre ws ds rest hws hwsAll hds hdsAll

lemma reSearch_none_of_not_hasAssign {marker s : List Char}
    (h : ¬ HasMarkerAssign marker s) : reSearch marker s = none := by
  cases hr : reSearch marker s with
  | none => rfl
  | some ds => exact absurd (reSearch_hasAssign hr) h

/-! ### Claim theorems about `set_version` -/

/-- C9: version markers are matched as substrings anywhere in the file
text, not only as whole lines or at line starts: the first occurrence in
textual order of the marker name followed by whitespace and a digit run
determines the captured component, the captured digit run is taken
verbatim (leading zeros preserved; the digit run is maximal, so trailing
non-digit characters are ignored), and later occurrences of the same
marker are ignored.  Formally: if the marker assignment starting after
`pre` is the earliest valid one in the text, `re.search` captures
exactly its digit run `ds`, wherever in the text (and wherever within a
line) it sits. -/
theorem version_marker_first_occurrence (marker pre ws ds rest : List Char)
    (hws : ws ≠ []) (hwsAll : ∀ c ∈ ws, isSpaceChar c = true)
    (hds : ds ≠ []) (hdsAll : ∀ c ∈ ds, c.isDigit = true)
    (hmax : ∀ c, rest.head? = some c → c.isDigit = false)
    (hfirst : ∀ pre₂ ws₂ ds₂ rest₂,
      pre ++ (marker ++ (ws ++ (ds ++ rest))) = pre₂ ++ (marker ++ (ws₂ ++ (ds₂ ++ rest₂))) →
      ws₂ ≠ [] → (∀ c ∈ ws₂, isSpaceChar c = true) →
      ds₂ ≠ [] → (∀ c ∈ ds₂, c.isDigit = true) → pre.length ≤ pre₂.length) :
    reSearch marker (pre ++ (marker ++ (ws ++ (ds ++ rest)))) = some ds := by
  induction pre with
  | nil =>
    simp only [List.nil_append]
    have hsome := @matchAt_exact marker ws ds rest hws hwsAll hds hdsAll hmax
    cases hs : marker ++ (ws ++ (ds ++ rest)) with
    | nil =>
      exfalso
      rcases List.append_eq_nil.mp hs with ⟨-, h2⟩
      exact hws (List.append_eq_nil.mp h2).1
    | cons c t =>
      rw [hs] at hsome
      simp only [reSearch, hsome]
  | cons p pt ih =>
    simp only [List.cons_append, reSearch]
    cases hm : matchAt marker (p :: (pt ++ (marker ++ (ws ++ (ds ++ rest))))) with
    | some dd =>
      exfalso
      obtain ⟨ws₂, rest₂, heq, hws₂, hwsAll₂, hds₂, hdsAll₂, -⟩ := matchAt_sound hm
      have hle := hfirst [] ws₂ dd rest₂ (by simpa [List.cons_append] using heq)
        hws₂ hwsAll₂ hds₂ hdsAll₂
      simp only [List.length_cons, List.length_nil] at hle
      omega
    | none =>
      apply ih
      intro pre₂ ws₂ ds₂ rest₂ he hws₂ hwsAll₂ hds₂ hdsAll₂
      have hle := hfirst (p :: pre₂) ws₂ ds₂ rest₂ (by simp only [List.cons_append, he])
        hws₂ hwsAll₂ hds₂ hdsAll₂
      simp only [List.length_cons] at hle
      omega

/-- Witness for C9: in the text
`RENDERER_VERSION_MAJOR 007px RENDERER_VERSION_MAJOR 9` the marker is not
at a line start in any structured sense, the first occurrence captures
`007` verbatim (leading zeros kept, the trailing `px…` ignored), and the
later `… 9` occurrence is ignored. -/
theorem version_marker_first_occurrence_witness :
    reSearch majorKey "RENDERER_VERSION_MAJOR 007px RENDERER_VERSION_MAJOR 9".toList =
      some "007".toList := by
  have h := version_marker_first_occurrence majorKey [] " ".toList "007".toList
    "px RENDERER_VERSION_MAJOR 9".toList (by decide) (by decide) (by decide) (by decide)
    (by decide) (fun _ _ _ _ _ _ _ _ _ => Nat.zero_le _)
  have heq : "RENDERER_VERSION_MAJOR 007px RENDERER_VERSION_MAJOR 9".toList =
      [] ++ (majorKey ++ (" ".toList ++ ("007".toList ++
        "px RENDERER_VERSION_MAJOR 9".toList))) := by decide
  rw [heq]
  exact h

/-- C1: for every filepath content, if the file cannot be read (`none`),
or any of the three version markers is absent or not followed by an
integer (no occurrence of the marker followed by whitespace and a digit
run anywhere in the text), version resolution stores an absent version
(`none`).  The embedding `set_version` is a total function — the Python
catch-all `except` branch means no exception escapes and recipe
evaluation continues with `self.version = None`. -/
theorem set_version_unresolved (file : Option (List Char))
    (h : file = none ∨ ∃ d, file = some d ∧
      (¬ HasMarkerAssign majorKey d ∨ ¬ HasMarkerAssign minorKey d ∨
        ¬ HasMarkerAssign patchKey d)) :
    set_version file = none := by
  rcases h with rfl | ⟨d, rfl, hd⟩
  · rfl
  · cases ha : reSearch majorKey d with
    | none => simp [set_version, ha]
    | some a =>
      cases hb : reSearch minorKey d with
      | none => simp [set_version, ha, hb]
      | some b =>
        cases hc : reSearch patchKey d with
        | none => simp [set_version, ha, hb, hc]
        | some c =>
          exfalso
          rcases hd with hm | hm | hm
          · exact hm (reSearch_hasAssign ha)
          · exact hm (reSearch_hasAssign hb)
          · exact hm (reSearch_hasAssign hc)

/-- Witness for C1: an unreadable file resolves to an absent version, and
so does a file whose content carries a major marker but no minor marker. -/
theorem set_version_unresolved_witness :
    set_version (none : Option (List Char)) = none ∧
      set_version (some "RENDERER_VERSION_MAJOR 1".toList) = none := by
  constructor
  · exact set_version_unresolved none (Or.inl rfl)
  · refine set_version_unresolved _ (Or.inr ⟨_, rfl, Or.inr (Or.inl fun h => ?_)⟩)
    have hs := reSearch_isSome_of_hasAssign h
    rw [show reSearch minorKey "RENDERER_VERSION_MAJOR 1".toList = none from by decide] at hs
    cases hs

/-- C2: for every file content that contains, anywhere and in any line
order, each of the three marker names followed by whitespace and an
integer, version resolution succeeds and produces a semantic version
string `major.minor.patch` assembled from the three captured integer
digit runs. -/
theorem set_version_resolves (d : List Char)
    (hM : HasMarkerAssign majorKey d) (hN : HasMarkerAssign minorKey d)
    (hP : HasMarkerAssign patchKey d) :
    ∃ a b c, set_version (some d) = some (a ++ '.' :: (b ++ '.' :: c)) ∧
      a ≠ [] ∧ (∀ x ∈ a, x.isDigit = true) ∧
      b ≠ [] ∧ (∀ x ∈ b, x.isDigit = true) ∧
      c ≠ [] ∧ (∀ x ∈ c, x.isDigit = true) := by
  obtain ⟨a, ha⟩ := Option.isSome_iff_exists.mp (reSearch_isSome_of_hasAssign hM)
  obtain ⟨b, hb⟩ := Option.isSome_iff_exists.mp (reSearch_isSome_of_hasAssign hN)
  obtain ⟨c, hc⟩ := Option.isSome_iff_exists.mp (reSearch_isSome_of_hasAssign hP)
  obtain ⟨ha1, ha2⟩ := reSearch_digits ha
  obtain ⟨hb1, hb2⟩ := reSearch_digits hb
  obtain ⟨hc1, hc2⟩ := reSearch_digits hc
  exact ⟨a, b, c, by simp [set_version, ha, hb, hc], ha1, ha2, hb1, hb2, hc1, hc2⟩

/-- The spec's example version-header content, with the lines deliberately
out of order. -/
def exampleContent : List Char :=
  "RENDERER_VERSION_MINOR 2\nRENDERER_VERSION_PATCH 3\nRENDERER_VERSION_MAJOR 1".toList

/-- Witness for C2: on the spec's example content (lines out of order,
values 1, 2, 3) resolution succeeds, and the resolved version is the
string `1.2.3`. -/
theorem set_version_resolves_witness :
    (∃ a b c, set_version (some exampleContent) = some (a ++ '.' :: (b ++ '.' :: c)) ∧
      a ≠ [] ∧ (∀ x ∈ a, x.isDigit = true) ∧
      b ≠ [] ∧ (∀ x ∈ b, x.isDigit = true) ∧
      c ≠ [] ∧ (∀ x ∈ c, x.isDigit = true)) ∧
    set_version (some exampleContent) = some "1.2.3".toList := by
  constructor
  · refine set_version_resolves exampleContent
      ⟨"RENDERER_VERSION_MINOR 2\nRENDERER_VERSION_PATCH 3\n".toList, " ".toList,
        "1".toList, [], by decide, by decide, by decide, by decide, by decide⟩
      ⟨[], " ".toList, "2".toList, "\nRENDERER_VERSION_PATCH 3\nRENDERER_VERSION_MAJOR 1".toList,
        by decide, by decide, by decide, by decide, by decide⟩
      ⟨"RENDERER_VERSION_MINOR 2\n".toList, " ".toList, "3".toList,
        "\nRENDERER_VERSION_MAJOR 1".toList,
        by decide, by decide, by decide, by decide, by decide⟩
  · decide

/-- C10: version resolution always reads the fixed path
`projects/core/include/core/version.hpp` and always searches for the
fixed markers `RENDERER_VERSION_MAJOR`, `RENDERER_VERSION_MINOR` and
`RENDERER_VERSION_PATCH`: the path and marker names are constants of the
program, and the outcome of a run depends on the filesystem only through
the content at that one path. -/
theorem set_version_fixed_inputs :
    version_filepath = "projects/core/include/core/version.hpp" ∧
    majorKey = "RENDERER_VERSION_MAJOR".toList ∧
    minorKey = "RENDERER_VERSION_MINOR".toList ∧
    patchKey = "RENDERER_VERSION_PATCH".toList ∧
    ∀ fs₁ fs₂ : String → Option (List Char),
      fs₁ "projects/core/include/core/version.hpp" =
        fs₂ "projects/core/include/core/version.hpp" →
      set_version_run fs₁ = set_version_run fs₂ := by
  refine ⟨rfl, rfl, rfl, rfl, fun fs₁ fs₂ h => ?_⟩
  unfold set_version_run version_filepath
  rw [h]

/-- Witness for C10: two filesystems that disagree everywhere except at
the fixed version-header path give identical resolution outcomes. -/
theorem set_version_fixed_inputs_witness :
    set_version_run (fun _ => none) =
      set_version_run (fun p =>
        if p = "projects/core/include/core/version.hpp" then none
        else some "RENDERER_VERSION_MAJOR 9".toList) := by
  refine set_version_fixed_inputs.2.2.2.2 _ _ ?_
  simp

/-! ## Spec-modelled components

The recipe delegates layout planning, artifact generation, build
invocation, dependency validation and lifecycle sequencing to the Conan
framework (`cmake_layout`, `CMakeToolchain`, `CMakeDeps`, `CMake`,
`ConanFile`), whose code is not part of this repository.  The following
definitions are modelled from the spec (sections 3–4 and 4.5/4.3 and the
lifecycle state machine of section 4), faithful to its words, and the
corresponding claims are settled against them. -/

/-- The recipe's settings axes: the closed key set
`{os, compiler, build_type, arch}` (source line 13), string-valued. -/
structure Settings where
  os : String
  compiler : String
  build_type : String
  arch : String
deriving DecidableEq

/-- The deterministic directory set computed by layout planning. -/
structure Layout where
  source_dir : String
  build_dir : String
  generators_dir : String
  package_dir : String
deriving DecidableEq

/-- A filesystem state: a map from paths to file contents. -/
def FSState : Type := String → Option String

/-- Writing one file into a filesystem state. -/
def fs_write (fs : FSState) (p c : String) : FSState :=
  fun q => if q = p then some c else fs q

/-- Modelled from the spec: `LayoutPlanner.plan(settings) -> Layout`
(spec §4.2, embedding `cmake_layout`, which is Conan code absent from
this repository): a pure function computing the build/source/generators
directories from the settings mapping alone. -/
def plan (s : Settings) : Layout :=
  { source_dir := "."
    build_dir := "build/" ++ s.build_type
    generators_dir := "build/" ++ s.build_type ++ "/generators"
    package_dir := "package" }

/-- Layout planning as observed against a filesystem state: planning
constructs paths only, so the state passes through. -/
def plan_run (s : Settings) (fs : FSState) : Layout × FSState :=
  (plan s, fs)

/-- Ordered runtime and build-time dependency reference lists
(independent namespaces). -/
structure Declaration where
  requires : List String
  build_requires : List String
deriving DecidableEq

/-- The recipe's own declared dependencies (source lines 16–25). -/
def rendererDecl : Declaration :=
  { requires := ["glm/1.0.1", "vulkan-memory-allocator/3.0.1", "glfw/3.4"]
    build_requires := ["gtest/1.16.0", "benchmark/1.9.1"] }

/-- A generated artifact: target path, byte content, and the dependency
references its content encodes. -/
structure BuildArtifact where
  path : String
  content : String
  refs : List String
deriving DecidableEq

/-- Modelled from the spec: the toolchain artifact content encodes the
settings (spec §4.4, embedding `CMakeToolchain`, Conan code absent from
this repository). -/
def toolchain_content (s : Settings) : String :=
  "os=" ++ s.os ++ "\ncompiler=" ++ s.compiler ++
    "\nbuild_type=" ++ s.build_type ++ "\narch=" ++ s.arch

/-- Modelled from the spec: the dependency-metadata artifact references
the `requires` list and only it, in insertion order (spec §4.4,
embedding `CMakeDeps`, Conan code absent from this repository). -/
def dep_metadata_refs (d : Declaration) : List String :=
  d.requires

/-- The dependency-metadata artifact's byte content: its references
rendered in insertion order. -/
def dep_metadata_content (d : Declaration) : String :=
  String.intercalate "\n" (dep_metadata_refs d)

/-- Modelled from the spec: one generation run writes exactly one
toolchain artifact and one dependency-metadata artifact into the planned
generators directory (spec §4.4). -/
def generate_run (l : Layout) (s : Settings) (d : Declaration) (fs : FSState) :
    List BuildArtifact × FSState :=
  let tc : BuildArtifact :=
    ⟨l.generators_dir ++ "/conan_toolchain.cmake", toolchain_content s, []⟩
  let dm : BuildArtifact :=
    ⟨l.generators_dir ++ "/conandeps.cmake", dep_metadata_content d, dep_metadata_refs d⟩
  ([tc, dm], fs_write (fs_write fs tc.path tc.content) dm.path dm.content)

/-- The result of one blocking external process call
(`commandSpec -> {exitCode, stdout, stderr}`, spec §6). -/
structure ProcessResult where
  exitCode : Int
  stdout : String
  stderr : String

/-- The fatal error surfaced when an external build phase exits
non-zero: phase name, exit code, captured diagnostic output. -/
structure BuildInvocationError where
  phase : String
  exitCode : Int
  output : String
deriving DecidableEq

/-- Modelled from the spec: `BuildInvoker.invoke` (spec §4.5, embedding
`CMake.configure()`/`CMake.build()`, Conan code absent from this
repository): run "configure", and only on its zero exit run "build"; a
non-zero exit surfaces a `BuildInvocationError` and there are no
retries.  The second component is the trace of external operations
actually invoked, in order. -/
def build_run (run : String → ProcessResult) :
    Except BuildInvocationError Unit × List String :=
  let c := run "configure"
  if c.exitCode ≠ 0 then
    (.error ⟨"configure", c.exitCode, c.stdout ++ c.stderr⟩, ["configure"])
  else
    let b := run "build"
    if b.exitCode ≠ 0 then
      (.error ⟨"build", b.exitCode, b.stdout ++ b.stderr⟩, ["configure", "build"])
    else
      (.ok (), ["configure", "build"])

/-- The lifecycle states of one recipe evaluation (spec §4). -/
inductive LifecyclePhase where
  | Unloaded
  | VersionResolved
  | LayoutPlanned
  | Generated
  | Built
deriving DecidableEq

/-- The recipe phases that drive lifecycle transitions. -/
inductive RecipeStep where
  | resolveVersion
  | planLayout
  | generateArtifacts
  | invokeBuild
deriving DecidableEq

/-- A phase invoked out of the required order, with the offending state
and step. -/
structure LifecycleOrderError where
  phase : LifecyclePhase
  step : RecipeStep
deriving DecidableEq

/-- Modelled from the spec: the lifecycle state machine
`Unloaded → VersionResolved → LayoutPlanned → Generated → Built`,
forward-only except the permitted `Built → Generated` regeneration; any
other invocation is a `LifecycleOrderError` and no missing step is
performed implicitly (spec §4, lifecycle paragraph). -/
def lifecycle_step : LifecyclePhase → RecipeStep → Except LifecycleOrderError LifecyclePhase
  | .Unloaded, .resolveVersion => .ok .VersionResolved
  | .VersionResolved, .planLayout => .ok .LayoutPlanned
  | .LayoutPlanned, .generateArtifacts => .ok .Generated
  | .Built, .generateArtifacts => .ok .Generated
  | .Generated, .invokeBuild => .ok .Built
  | s, a => .error ⟨s, a⟩

/-- Position of a lifecycle state in the forward order. -/
def phase_index : LifecyclePhase → Nat
  | .Unloaded => 0
  | .VersionResolved => 1
  | .LayoutPlanned => 2
  | .Generated => 3
  | .Built => 4

/-- The states visited while running a sequence of steps; `none` as soon
as a step is out of order. -/
def lifecycle_trace : LifecyclePhase → List RecipeStep → Option (List LifecyclePhase)
  | s, [] => some [s]
  | s, a :: rest =>
    match lifecycle_step s a with
    | .ok next => (lifecycle_trace next rest).map (s :: ·)
    | .error _ => none

/-- The package name of a `"name/version"` dependency reference: the
part before the first `/`. -/
def dep_name (r : String) : String :=
  String.mk (r.toList.takeWhile (· != '/'))

/-- First name that occurs again later in the list, if any. -/
def find_dup : List String → Option String
  | [] => none
  | x :: xs => if x ∈ xs then some x else find_dup xs

/-- The fatal duplicate-name error of dependency declaration, reported
with the offending name. -/
structure DependencyDeclarationError where
  name : String
deriving DecidableEq

/-- Modelled from the spec: `declare(requires, build_requires)` (spec
§4.3; validation is performed by the Conan framework, absent from this
repository): each list individually must have unique package names; a
duplicate within one list is a fatal `DependencyDeclarationError`
carrying the offending name; the two lists are never merged or compared
against each other. -/
def declare (reqs breqs : List String) : Except DependencyDeclarationError Declaration :=
  match find_dup (reqs.map dep_name) with
  | some n => .error ⟨n⟩
  | none =>
    match find_dup (breqs.map dep_name) with
    | some n => .error ⟨n⟩
    | none => .ok ⟨reqs, breqs⟩

/-! ### Claim theorems about the modelled components -/

/-- C3: the dependency-metadata artifact references only entries of the
`requires` list; a `build_requires` entry that is not also a runtime
requirement never appears among its references.  (spec-modelled:
`CMakeDeps` is Conan code.) -/
theorem dep_metadata_only_requires (d : Declaration) :
    (∀ r ∈ dep_metadata_refs d, r ∈ d.requires) ∧
    (∀ b ∈ d.build_requires, b ∉ d.requires → b ∉ dep_metadata_refs d) := by
  constructor
  · intro r hr
    exact hr
  · intro b _ hb hmem
    exact hb hmem

/-- Witness for C3: on the recipe's own declaration, the build-time
entries `gtest` and `benchmark` are absent from the runtime
dependency-metadata references. -/
theorem dep_metadata_only_requires_witness :
    "gtest/1.16.0" ∈ rendererDecl.build_requires ∧
    "gtest/1.16.0" ∉ dep_metadata_refs rendererDecl ∧
    "benchmark/1.9.1" ∉ dep_metadata_refs rendererDecl := by
  refine ⟨by decide, ?_, ?_⟩
  · exact (dep_metadata_only_requires rendererDecl).2 "gtest/1.16.0" (by decide) (by decide)
  · exact (dep_metadata_only_requires rendererDecl).2 "benchmark/1.9.1" (by decide) (by decide)

/-- C4: a build invocation runs the two external operations in the order
configure then build; whenever configure exits non-zero the build
operation is never attempted (the invocation trace stops at
`["configure"]`, so there is no retry either) and the failure is
surfaced as a `BuildInvocationError` carrying the phase name, exit code
and captured diagnostic output.  (spec-modelled: `CMake` is Conan
code.) -/
theorem build_configure_then_build (run : String → ProcessResult) :
    ((run "configure").exitCode = 0 → (build_run run).2 = ["configure", "build"]) ∧
    ((run "configure").exitCode ≠ 0 → (build_run run).2 = ["configure"] ∧
      (build_run run).1 = .error ⟨"configure", (run "configure").exitCode,
        (run "configure").stdout ++ (run "configure").stderr⟩) := by
  constructor
  · intro h
    by_cases hb : (run "build").exitCode = 0 <;> simp [build_run, h, hb]
  · intro h
    simp [build_run, h]

/-- A backend whose configure step fails with exit code 1. -/
def failingBackend : String → ProcessResult :=
  fun cmd => if cmd = "configure" then ⟨1, "", "configure error"⟩ else ⟨0, "", ""⟩

/-- Witness for C4: against `failingBackend`, only configure is invoked
and the surfaced error carries the phase, exit code and output. -/
theorem build_configure_then_build_witness :
    (build_run failingBackend).2 = ["configure"] ∧
    (build_run failingBackend).1 = .error ⟨"configure", 1, "configure error"⟩ := by
  have h := (build_configure_then_build failingBackend).2 (by decide)
  refine ⟨h.1, ?_⟩
  rw [h.2]
  rfl

/-- C5: invoking generation from a state before `LayoutPlanned`, or
build from a state before `Generated`, fails with a
`LifecycleOrderError` (carrying the offending state and step — the
missing phases are not performed implicitly), while the normal sequence
visits exactly the forward-only states
`Unloaded, VersionResolved, LayoutPlanned, Generated, Built`.
(spec-modelled: lifecycle sequencing is Conan code.) -/
theorem lifecycle_order_enforced :
    (∀ s, phase_index s < phase_index .LayoutPlanned →
      lifecycle_step s .generateArtifacts = .error ⟨s, .generateArtifacts⟩) ∧
    (∀ s, phase_index s < phase_index .Generated →
      lifecycle_step s .invokeBuild = .error ⟨s, .invokeBuild⟩) ∧
    lifecycle_trace .Unloaded
        [.resolveVersion, .planLayout, .generateArtifacts, .invokeBuild] =
      some [.Unloaded, .VersionResolved, .LayoutPlanned, .Generated, .Built] := by
  refine ⟨?_, ?_, rfl⟩ <;>
    intro s h <;> cases s <;> first | rfl | simp [phase_index] at h

/-- Witness for C5: generate from `Unloaded` and build from
`LayoutPlanned` both fail with the order error. -/
theorem lifecycle_order_enforced_witness :
    lifecycle_step .Unloaded .generateArtifacts =
        .error ⟨.Unloaded, .generateArtifacts⟩ ∧
      lifecycle_step .LayoutPlanned .invokeBuild =
        .error ⟨.LayoutPlanned, .invokeBuild⟩ :=
  ⟨lifecycle_order_enforced.1 .Unloaded (by decide),
   lifecycle_order_enforced.2.1 .LayoutPlanned (by decide)⟩

/-- C6: layout planning is a pure, idempotent function of the settings:
a repeated call with the same settings (threading the filesystem state
through) returns the byte-identical path set, and planning leaves the
filesystem state untouched.  (spec-modelled: `cmake_layout` is Conan
code.) -/
theorem layout_plan_pure_idempotent (s : Settings) (fs : FSState) :
    (plan_run s ((plan_run s fs).2)).1 = (plan_run s fs).1 ∧
    (plan_run s fs).2 = fs :=
  ⟨rfl, rfl⟩

/-- C7: artifact generation is deterministic: for a fixed
(layout, settings, declaration) triple the produced artifacts — paths,
byte contents and references — do not depend on the filesystem state,
and in particular running generation a second time after the first run's
writes produces byte-identical artifacts.  (spec-modelled:
`CMakeToolchain`/`CMakeDeps` are Conan code.) -/
theorem generation_deterministic (l : Layout) (s : Settings) (d : Declaration)
    (fs₁ fs₂ : FSState) :
    (generate_run l s d fs₁).1 = (generate_run l s d fs₂).1 ∧
    (generate_run l s d ((generate_run l s d fs₁).2)).1 = (generate_run l s d fs₁).1 :=
  ⟨rfl, rfl⟩

/-! ### Duplicate detection lemmas for dependency declaration -/

lemma find_dup_eq_none_of_nodup {l : List String} (h : l.Nodup) : find_dup l = none := by
  induction l with
  | nil => rfl
  | cons x xs ih =>
    rcases List.nodup_cons.mp h with ⟨hx, hxs⟩
    simp only [find_dup, if_neg hx]
    exact ih hxs

lemma nodup_of_find_dup_none {l : List String} (h : find_dup l = none) : l.Nodup := by
  induction l with
  | nil => exact List.nodup_nil
  | cons x xs ih =>
    simp only [find_dup] at h
    by_cases hx : x ∈ xs
    · rw [if_pos hx] at h
      cases h
    · rw [if_neg hx] at h
      exact List.nodup_cons.mpr ⟨hx, ih h⟩

lemma find_dup_count {l : List String} {n : String} (h : find_dup l = some n) :
    2 ≤ l.count n := by
  induction l with
  | nil => cases h
  | cons x xs ih =>
    simp only [find_dup] at h
    by_cases hx : x ∈ xs
    · rw [if_pos hx] at h
      simp only [Option.some.injEq] at h
      subst h
      have hpos : 0 < xs.count x := List.count_pos_iff.mpr hx
      rw [List.count_cons_self]
      omega
    · rw [if_neg hx] at h
      have := ih h
      rw [List.count_cons]
      omega

/-- C8: dependency declaration rejects, with a fatal duplicate-name
error reporting the offending name, any single list — `requires` or
`build_requires` — in which one package name appears twice (when both
lists are bad, the `requires` duplicate is the one reported, as the
lists are validated in that order); it accepts lists that are each
individually duplicate-free, regardless of names shared between
`requires` and `build_requires` — the two namespaces are never merged.
(spec-modelled: the validation is Conan code.) -/
theorem declare_rejects_duplicates (reqs breqs : List String) :
    (¬ (reqs.map dep_name).Nodup →
      ∃ n, declare reqs breqs = .error ⟨n⟩ ∧ 2 ≤ (reqs.map dep_name).count n) ∧
    ((reqs.map dep_name).Nodup → ¬ (breqs.map dep_name).Nodup →
      ∃ n, declare reqs breqs = .error ⟨n⟩ ∧ 2 ≤ (breqs.map dep_name).count n) ∧
    ((reqs.map dep_name).Nodup → (breqs.map dep_name).Nodup →
      declare reqs breqs = .ok ⟨reqs, breqs⟩) := by
  refine ⟨?_, ?_, ?_⟩
  · intro h
    cases hf : find_dup (reqs.map dep_name) with
    | none => exact absurd (nodup_of_find_dup_none hf) h
    | some n =>
      refine ⟨n, ?_, find_dup_count hf⟩
      simp [declare, hf]
  · intro h1 h2
    cases hf : find_dup (breqs.map dep_name) with
    | none => exact absurd (nodup_of_find_dup_none hf) h2
    | some n =>
      refine ⟨n, ?_, find_dup_count hf⟩
      simp [declare, find_dup_eq_none_of_nodup h1, hf]
  · intro h1 h2
    simp [declare, find_dup_eq_none_of_nodup h1, find_dup_eq_none_of_nodup h2]

/-- Witness for C8: `requires=["libA/1.0","libA/2.0"]` is rejected with
the duplicated name `libA` reported; a duplicated name inside
`build_requires` alone (`["libB/1.0","libB/2.0"]` with clean
`requires`) is likewise rejected with `libB` reported; and the same
package name split across `requires` and `build_requires` is
accepted. -/
theorem declare_rejects_duplicates_witness :
    (∃ n, declare ["libA/1.0", "libA/2.0"] [] = .error ⟨n⟩ ∧
      2 ≤ ((["libA/1.0", "libA/2.0"] : List String).map dep_name).count n) ∧
    (∃ n, declare ["libA/1.0"] ["libB/1.0", "libB/2.0"] = .error ⟨n⟩ ∧
      2 ≤ ((["libB/1.0", "libB/2.0"] : List String).map dep_name).count n) ∧
    declare ["libA/1.0"] ["libA/2.0"] = .ok ⟨["libA/1.0"], ["libA/2.0"]⟩ :=
  ⟨(declare_rejects_duplicates ["libA/1.0", "libA/2.0"] []).1 (by decide),
   (declare_rejects_duplicates ["libA/1.0"] ["libB/1.0", "libB/2.0"]).2.1
     (by decide) (by decide),
   (declare_rejects_duplicates ["libA/1.0"] ["libA/2.0"]).2.2 (by decide) (by decide)⟩

end Wren
